import Mathlib

/-
Verification development for the Ida RAG backend
(backend/app/services: document_processor.py, vector_store_service.py,
llm_service.py, rag_service.py; backend/app/core: validation.py, constants.py).

Each Python routine relevant to the claims is shallowly embedded as an
executable Lean function over `List Char` / plain data.  Unbounded `while`
loops and scanners are embedded as structurally recursive functions over an
explicit fuel argument; every call site passes fuel that provably dominates
the number of iterations (the loops consume at least one unit of input per
step), and fuel-irrelevance is proved where a claim depends on it.
-/

namespace Ida

instance instDecEqExcept {α β : Type} [DecidableEq α] [DecidableEq β] :
    DecidableEq (Except α β)
  | .error x, .error y =>
    if h : x = y then .isTrue (congrArg Except.error h)
    else .isFalse (fun he => h (Except.error.inj he))
  | .error _, .ok _ => .isFalse (fun he => Except.noConfusion he)
  | .ok _, .error _ => .isFalse (fun he => Except.noConfusion he)
  | .ok x, .ok y =>
    if h : x = y then .isTrue (congrArg Except.ok h)
    else .isFalse (fun he => h (Except.ok.inj he))

/-! ## Python-style string / list helpers -/

/-- Python slice `s[a:b]` over code points, with negative-index normalisation
and clamping exactly as in CPython. -/
def pySlice (s : List Char) (a b : Int) : List Char :=
  let n : Int := s.length
  let norm : Int → Int := fun i => if i < 0 then max 0 (i + n) else min i n
  ((s.take (norm b).toNat).drop (norm a).toNat)

/-- Membership of `pat` as a contiguous substring of `s` (Python `in`). -/
def containsSub (s pat : List Char) : Bool :=
  (List.range (s.length + 1)).any fun i => pat.isPrefixOf (s.drop i)

/-- The six characters Python's `str.strip()` removes by default. -/
def pyIsSpace (c : Char) : Bool :=
  c == ' ' || c == '\t' || c == '\n' || c == '\r' || c == '\x0b' || c == '\x0c'

/-- Python `str.strip()`. -/
def pyStrip (s : List Char) : List Char :=
  ((s.dropWhile pyIsSpace).reverse.dropWhile pyIsSpace).reverse

/-! ## LaTeXAwareTextSplitter (document_processor.py, lines 16-87)

`split_text` first replaces each LaTeX span with a placeholder
`__LATEX_<TYPE>_<k>__` (seven regex passes applied in order, a global
counter shared across passes), then windows the placeholder-bearing text,
restoring the placeholders in every chunk appended by the loop body; the
final chunk appended by the `break` path is NOT restored (source lines
59-61). -/

/-- Placeholder token `__LATEX_<typ>_<k>__`. -/
def mkPlaceholder (typ : String) (k : Nat) : List Char :=
  ("__LATEX_" ++ typ ++ "_" ++ toString k ++ "__").toList

/-- Split `s` at the first occurrence of `cls`: returns the part before the
occurrence and the part after it (the shortest-match search of the
non-greedy regexes `opn[\s\S]*?cls`). -/
def splitAtFirst (cls : List Char) : List Char → Option (List Char × List Char)
  | [] => none
  | c :: rest =>
    if cls.isPrefixOf (c :: rest) then some ([], (c :: rest).drop cls.length)
    else
      match splitAtFirst cls rest with
      | some (pre, post) => some (c :: pre, post)
      | none => none

/-- One `re.sub` pass for a delimiter pattern `opn[\s\S]*?cls`: scan left to
right, replace each non-overlapping shortest `opn..cls` span with a fresh
placeholder, and record `(placeholder, original)` pairs in match order.
`k` is the global placeholder counter.  Fuel bounds the scan; each step
consumes at least one input character, so fuel `s.length + 1` is exact. -/
def subDelimGo (opn cls : List Char) (typ : String) :
    Nat → Nat → List Char → List Char × List (List Char × List Char) × Nat
  | 0, k, s => (s, [], k)
  | fuel + 1, k, s =>
    match s with
    | [] => ([], [], k)
    | c :: rest =>
      if opn.isPrefixOf (c :: rest) then
        match splitAtFirst cls ((c :: rest).drop opn.length) with
        | some (interior, after) =>
          let ph := mkPlaceholder typ k
          let orig := opn ++ interior ++ cls
          let (out, phs, k2) := subDelimGo opn cls typ fuel (k + 1) after
          (ph ++ out, (ph, orig) :: phs, k2)
        | none =>
          let (out, phs, k2) := subDelimGo opn cls typ fuel k rest
          (c :: out, phs, k2)
      else
        let (out, phs, k2) := subDelimGo opn cls typ fuel k rest
        (c :: out, phs, k2)

def subDelim (opn cls : String) (typ : String) (k : Nat) (s : List Char) :
    List Char × List (List Char × List Char) × Nat :=
  subDelimGo opn.toList cls.toList typ (s.length + 1) k s

/-- One `re.sub` pass for the INLINE_MATH pattern `\$[^$\n]+\$`: at a `$`,
greedily take a non-empty run of characters that are neither `$` nor a
newline; the match succeeds iff the run is non-empty and the next character
is `$` (no backtracking can help, since the run contains no `$`). -/
def subInlineGo : Nat → Nat → List Char → List Char × List (List Char × List Char) × Nat
  | 0, k, s => (s, [], k)
  | fuel + 1, k, s =>
    match s with
    | [] => ([], [], k)
    | c :: rest =>
      if c = '$' then
        let run := rest.takeWhile (fun d => !(d == '$') && !(d == '\n'))
        match rest.drop run.length, run with
        | '$' :: after, _ :: _ =>
          let ph := mkPlaceholder "INLINE_MATH" k
          let orig := '$' :: (run ++ ['$'])
          let (out, phs, k2) := subInlineGo fuel (k + 1) after
          (ph ++ out, (ph, orig) :: phs, k2)
        | _, _ =>
          let (out, phs, k2) := subInlineGo fuel k rest
          (c :: out, phs, k2)
      else
        let (out, phs, k2) := subInlineGo fuel k rest
        (c :: out, phs, k2)

/-- The seven LaTeX patterns of `LaTeXAwareTextSplitter.latex_patterns`,
applied in source order with one shared counter; returns the
placeholder-bearing text and the placeholder dictionary in insertion
order. -/
def extractPlaceholders (text : List Char) : List Char × List (List Char × List Char) :=
  let (t1, p1, k1) := subDelim "$$" "$$" "DISPLAY_MATH" 0 text
  let (t2, p2, k2) := subDelim "\\[" "\\]" "DISPLAY_MATH_ALT" k1 t1
  let (t3, p3, k3) := subDelim "\\begin{equation}" "\\end{equation}" "EQUATION_ENV" k2 t2
  let (t4, p4, k4) := subDelim "\\begin{align}" "\\end{align}" "ALIGN_ENV" k3 t3
  let (t5, p5, k5) := subDelim "\\begin{gather}" "\\end{gather}" "GATHER_ENV" k4 t4
  let (t6, p6, k6) := subInlineGo (t5.length + 1) k5 t5
  let (t7, p7, _) := subDelim "\\(" "\\)" "INLINE_MATH_ALT" k6 t6
  (t7, p1 ++ p2 ++ p3 ++ p4 ++ p5 ++ p6 ++ p7)

/-- Python `str.replace(pat, rep)`: replace all non-overlapping occurrences,
scanning left to right.  Fuel `s.length + 1` dominates since every step
consumes at least one input character (our patterns are non-empty). -/
def replaceAllGo (pat rep : List Char) : Nat → List Char → List Char
  | 0, s => s
  | fuel + 1, s =>
    match s with
    | [] => []
    | c :: rest =>
      if pat.isPrefixOf (c :: rest) && !pat.isEmpty then
        rep ++ replaceAllGo pat rep fuel ((c :: rest).drop pat.length)
      else
        c :: replaceAllGo pat rep fuel rest

def replaceAll (s pat rep : List Char) : List Char :=
  replaceAllGo pat rep (s.length + 1) s

/-- Restore the placeholders of a chunk, iterating the placeholder
dictionary in insertion order (source lines 79-80). -/
def restoreChunk (phs : List (List Char × List Char)) (chunk : List Char) : List Char :=
  phs.foldl (fun acc pr => replaceAll acc pr.1 pr.2) chunk

/-- `modified_text[i] in '.!?\n' and not modified_text[i-1:i+1] == '..'`
(source line 66). -/
def splitCharAt (m : List Char) (i : Nat) : Bool :=
  match m.get? i with
  | some c =>
    (c == '.' || c == '!' || c == '?' || c == '\n') &&
      !(pySlice m ((i : Int) - 1) ((i : Int) + 1) == ['.', '.'])
  | none => false

/-- The placeholder-vicinity test of source lines 68-72: 50 characters of
context before and after position `i`. -/
def insidePlaceholderAt (m : List Char) (i : Nat) : Bool :=
  let before := pySlice m (max 0 ((i : Int) - 50)) (i : Int)
  let after := pySlice m (i : Int) (min (m.length : Int) ((i : Int) + 50))
  containsSub before "__LATEX_".toList && containsSub after "__".toList

/-- A position is a usable split candidate (source lines 66-74). -/
def candidateAt (m : List Char) (i : Nat) : Bool :=
  splitCharAt m i && !(insidePlaceholderAt m i)

/-- First candidate position in `[lo, lo + cnt)` (the `for i in range(...)`
of source lines 65-74). -/
def findCandidate (m : List Char) : Nat → Nat → Option Nat
  | _, 0 => none
  | lo, cnt + 1 => if candidateAt m lo then some lo else findCandidate m (lo + 1) cnt

/-- The split point chosen for a window starting at `start` (source lines
64-74): the first candidate `i` in `range(max(start, end-100),
min(end+100, text_len))` gives `i + 1`, otherwise the ideal boundary
`end = start + chunk_size`. -/
def findSplitPoint (cs : Nat) (m : List Char) (start : Nat) : Nat :=
  let e := start + cs
  let lo := max start (e - 100)
  let hi := min (e + 100) m.length
  match findCandidate m lo (hi - lo) with
  | some i => i + 1
  | none => e

/-- `start = max(start + 1, split_point - chunk_overlap)` (source line 85).
Nat subtraction truncates at 0 exactly as Python's `max` with `start+1 ≥ 1`
absorbs a negative right operand. -/
def nextStart (cs co : Nat) (m : List Char) (start : Nat) : Nat :=
  max (start + 1) (findSplitPoint cs m start - co)

/-- The windowing `while` loop of source lines 56-85, parametrised over the
per-chunk post-processing `f` applied to chunks appended by the loop body
(in the source, placeholder restoration).  The `break` path (source lines
59-61) appends the final tail without applying `f` — exactly as the source
appends `modified_text[start:]` without restoring placeholders.  Fuel is
consumed once per iteration; the start index strictly increases each
iteration (`nextStart_gt`, below), so fuel `m.length + 1` is never
exhausted (`chunkLoop_fuel_irrel`, below). -/
def chunkLoop (f : List Char → List Char) (cs co : Nat) (m : List Char) :
    Nat → Nat → List (List Char)
  | 0, _ => []
  | fuel + 1, start =>
    if start < m.length then
      if m.length ≤ start + cs then
        [m.drop start]
      else
        let sp := findSplitPoint cs m start
        f ((m.drop start).take (sp - start)) :: chunkLoop f cs co m fuel (nextStart cs co m start)
    else []

/-- `LaTeXAwareTextSplitter.split_text` (source lines 34-87). -/
def splitText (cs co : Nat) (text : List Char) : List (List Char) :=
  let (m, phs) := extractPlaceholders text
  chunkLoop (restoreChunk phs) cs co m (m.length + 1) 0

/-- The same windowing loop without placeholder restoration: the chunks of
the placeholder-bearing text.  Control flow (split points, start updates,
loop exit) is literally shared with `splitText` via `chunkLoop`; only the
per-chunk restoration differs. -/
def rawWindows (cs co : Nat) (m : List Char) : List (List Char) :=
  chunkLoop (fun c => c) cs co m (m.length + 1) 0

/-! ## VectorStoreService.add_documents metadata normalisation
(vector_store_service.py, lines 59-120)

Metadata maps are embedded as insertion-ordered association lists with
unique-key update semantics, matching Python `dict` (assignment to an
existing key keeps its position, a new key is appended). -/

/-- A metadata value: string, integer, or boolean. -/
inductive MVal where
  | s (v : String)
  | i (v : Int)
  | b (v : Bool)
  deriving DecidableEq, Repr

abbrev Metadata := List (String × MVal)

/-- Python `dict` lookup (first — and only — occurrence of the key). -/
def mget : Metadata → String → Option MVal
  | [], _ => none
  | (k, v) :: t, key => if k = key then some v else mget t key

/-- Python `dict` assignment: update in place if the key exists, else
append. -/
def mset : Metadata → String → MVal → Metadata
  | [], key, v => [(key, v)]
  | (k, w) :: t, key, v => if k = key then (k, v) :: t else (k, w) :: mset t key v

/-- Digit-string to number, `none` if empty or non-digit. -/
def digitsToNat : List Char → Option Nat
  | [] => none
  | cs =>
    if cs.all Char.isDigit then
      some (cs.foldl (fun acc c => acc * 10 + (c.toNat - '0'.toNat)) 0)
    else none

/-- Python `int(str)`: optional surrounding whitespace, optional sign,
decimal digits; raises (`none`) otherwise. -/
def parsePyInt (s : String) : Option Int :=
  match pyStrip s.toList with
  | '-' :: ds => (digitsToNat ds).map (fun n => -(n : Int))
  | '+' :: ds => (digitsToNat ds).map (fun n => (n : Int))
  | ds => (digitsToNat ds).map (fun n => (n : Int))

/-- Python `int(v)` on a metadata value: ints unchanged, bools to 0/1,
strings parsed; anything unparsable raises (`none`). -/
def pyInt : MVal → Option MVal
  | .i v => some (.i v)
  | .b v => some (.i (cond v 1 0))
  | .s v => (parsePyInt v).map .i

/-- `pathlib.Path(s).name`: the final path component (trailing slashes
dropped). -/
def pathName (s : List Char) : List Char :=
  let t := s.reverse.dropWhile (fun c => c == '/')
  (t.takeWhile (fun c => !(c == '/'))).reverse

/-- `pathlib.Path(s).stem`: the name minus its last suffix; a leading dot
or a trailing dot does not start a suffix (CPython: `0 < i < len(name)-1`). -/
def pathStem (f : String) : String :=
  let name := pathName f.toList
  match name.reverse.findIdx? (fun c => c == '.') with
  | none => String.mk name
  | some rj =>
    let i := name.length - 1 - rj
    if 0 < i ∧ i < name.length - 1 then String.mk (name.take i) else String.mk name

/-- Title truncation (source lines 78-79): `title[:97] + "..."` when longer
than 100 code points. -/
def truncTitle (t : String) : String :=
  if 100 < t.length then t.take 97 ++ "..." else t

/-- `int(...)` coercion of one optional field (source lines 90-99):
absent fields are left alone, present fields are coerced or raise. -/
def coerceIntField (m : Metadata) (key : String) : Option Metadata :=
  match mget m key with
  | none => some m
  | some v => (pyInt v).map (mset m key)

/-- The `defaults` dict of source lines 102-112, computed from the
metadata state after the title/alias/int steps. -/
def metaDefaults (m : Metadata) : List (String × MVal) :=
  [("collection_name", (mget m "collection").getD (.s "default")),
   ("content_type", .s "text"),
   ("language", .s "en"),
   ("source_type", .s "document"),
   ("author", (mget m "author").getD ((mget m "creator").getD (.s "Unknown"))),
   ("publisher", (mget m "producer").getD (.s "Unknown")),
   ("date", (mget m "creationdate").getD (.s "Unknown")),
   ("keywords", .s ""),
   ("description", (mget m "title").getD (.s ""))]

/-- The `for key, default_value in defaults.items()` loop of source lines
114-116: fill a default only when the key is absent. -/
def applyDefaults (m : Metadata) (ds : List (String × MVal)) : Metadata :=
  ds.foldl (fun acc kv => if (mget acc kv.1).isSome then acc else mset acc kv.1 kv.2) m

/-- The title derivation of source lines 76-82: keep an existing title,
derive one from a string filename (`Path(...).stem`, truncated), fall back
to "Untitled Document"; `Path()` on a non-string filename raises
(`none`). -/
def ensureTitle (m : Metadata) : Option Metadata :=
  if (mget m "title").isSome then some m
  else
    match mget m "filename" with
    | some (.s f) => some (mset m "title" (.s (truncTitle (pathStem f))))
    | some _ => none
    | none => some (mset m "title" (.s "Untitled Document"))

/-- Source lines 85-87: mirror the title value into the `subject` and
`name` alias fields. -/
def mirrorTitle (m : Metadata) (tv : MVal) : Metadata :=
  mset (mset m "subject" tv) "name" tv

/-- The per-metadata normalisation pass of `VectorStoreService.add_documents`
(source lines 71-118): derive/ensure a title, mirror it into `subject` and
`name`, coerce `document_id` / `chunk_index` / `total_chunks` with
`int(...)`, then fill defaults for missing keys.  `none` models a raised
exception (`int()` on an unparsable value, `Path()` on a non-string
filename). -/
def normalizeMetadata (m : Metadata) : Option Metadata :=
  match ensureTitle m with
  | none => none
  | some m1 =>
    match mget m1 "title" with
    | none => none
    | some tv =>
      match coerceIntField (mirrorTitle m1 tv) "document_id" with
      | none => none
      | some m3 =>
        match coerceIntField m3 "chunk_index" with
        | none => none
        | some m4 =>
          match coerceIntField m4 "total_chunks" with
          | none => none
          | some m5 => some (applyDefaults m5 (metaDefaults m5))

/-! ## VectorStoreService.delete_documents_by_id
(vector_store_service.py, lines 210-237)

The Milvus collection is modelled as an optional list of entries (absent
collection = `has_collection` false); each entry carries its vector id and
the `document_id` scalar field the delete expression filters on.  On a
healthy store the routine performs no raising operation: connectivity
failures of the backing client are outside this model (the `except` clause
re-raises them). -/

structure VecEntry where
  vecId : Nat
  docId : Int
  deriving DecidableEq, Repr

/-- The observable outcome of `delete_documents_by_id`: the resulting
store, the value the Python function returns (always `None`), and the
deleted count it computes and logs (`initial_count - final_count`),
`none` when the collection did not exist (nothing counted). -/
structure DeleteOutcome where
  store : Option (List VecEntry)
  returned : Option Int
  loggedDeleted : Option Int
  deriving DecidableEq, Repr

/-- `VectorStoreService.delete_documents_by_id` on a healthy store:
missing collection → warn and return; otherwise delete the entities
matching `document_id == {document_id}`, flush, and log the count.  The
function body has no `return` with a value, so the call returns `None`. -/
def deleteDocumentsById (store : Option (List VecEntry)) (documentId : Int) : DeleteOutcome :=
  match store with
  | none => ⟨none, none, none⟩
  | some es =>
    let remaining := es.filter (fun e => !(e.docId == documentId))
    ⟨some remaining, none, some ((es.length : Int) - (remaining.length : Int))⟩

/-! ## LLMService (llm_service.py, lines 143-262)

The three provider slots (Ollama Cloud, Ollama Local, OpenAI) are modelled
by availability flags (slot initialised or `None`); an invocation of an
available provider is modelled by an environment function returning either
the response text or a raised error message.  `get_llm` resolves a
preferred name to a provider or raises; `invoke_with_fallback` tries the
preferred name, then walks the remaining names in the fixed
cloud → local → openai order.  The returned trace lists every provider on
which an invocation (`llm.ainvoke`) was actually attempted, in order. -/

inductive Provider where
  | cloud
  | local
  | openai
  deriving DecidableEq, Repr

def providerName : Provider → String
  | .cloud => "ollama_cloud"
  | .local => "ollama_local"
  | .openai => "openai"

structure LlmEnv where
  availCloud : Bool
  availLocal : Bool
  availOpenai : Bool
  invokeResult : Provider → Except String String

def availOf (env : LlmEnv) : Provider → Bool
  | .cloud => env.availCloud
  | .local => env.availLocal
  | .openai => env.availOpenai

/-- `LLMService.get_primary_llm_type` (source lines 143-154). -/
def getPrimaryLlmType (env : LlmEnv) : String :=
  if env.availCloud then "ollama_cloud"
  else if env.availLocal then "ollama_local"
  else if env.availOpenai then "openai"
  else "ollama_cloud"

/-- `LLMService.get_llm` (source lines 156-215): preferred slot when its
name matches and it is available, else the first available slot in the
fixed cloud → local → openai order, else raise. -/
def getLlm (env : LlmEnv) (preferred : String) : Except String Provider :=
  if preferred == "ollama_cloud" && env.availCloud then .ok .cloud
  else if preferred == "ollama_local" && env.availLocal then .ok .local
  else if preferred == "openai" && env.availOpenai then .ok .openai
  else if env.availCloud then .ok .cloud
  else if env.availLocal then .ok .local
  else if env.availOpenai then .ok .openai
  else .error "No LLM available. Please check Ollama or OpenAI configuration."

/-- The first available slot in the fixed priority order (the fall-through
part of `get_llm`). -/
def firstAvail (env : LlmEnv) : Option Provider :=
  if env.availCloud then some .cloud
  else if env.availLocal then some .local
  else if env.availOpenai then some .openai
  else none

/-- One `try: llm, name = get_llm(...); response = await llm.ainvoke(...)`
block of `invoke_with_fallback`: returns the invocation trace of the block
and, on success, the response text and the resolved name.  Exceptions from
`get_llm` and from the invocation are both absorbed (`none`). -/
def attemptOne (env : LlmEnv) (name : String) : List Provider × Option (String × String) :=
  match getLlm env name with
  | .error _ => ([], none)
  | .ok p =>
    match env.invokeResult p with
    | .ok t => ([p], some (t, providerName p))
    | .error _ => ([p], none)

def allFailedMsg : String := "All LLMs failed. Please check your configuration."

/-- The `for fallback in fallback_order` loop of source lines 252-260. -/
def fallbackLoop (env : LlmEnv) : List String → List Provider × Except String (String × String)
  | [] => ([], .error allFailedMsg)
  | n :: rest =>
    match attemptOne env n with
    | (tr, some r) => (tr, .ok r)
    | (tr, none) =>
      match fallbackLoop env rest with
      | (tr2, res) => (tr ++ tr2, res)

/-- `LLMService.invoke_with_fallback` (source lines 217-262): try the
preferred name, then every other name in the fixed cloud → local → openai
order (`fallback_order` excludes only the preferred name), raising the
aggregate error when everything failed. -/
def invokeWithFallback (env : LlmEnv) (preferred : String) :
    List Provider × Except String (String × String) :=
  match attemptOne env preferred with
  | (tr, some r) => (tr, .ok r)
  | (tr, none) =>
    match fallbackLoop env
        (["ollama_cloud", "ollama_local", "openai"].filter (fun n => !(n == preferred))) with
    | (tr2, res) => (tr ++ tr2, res)

/-! ## RAGService (rag_service.py) and validation (core/validation.py)

`chat` validates inputs, resolves the model, runs retrieve → generate, and
on any exception recurses once per fallback step keyed off the current
model value (cloud → local → openai → re-raise).  The trace records every
externally observable action: a raised validation error, a retrieval call,
and each provider invocation.  The outcome additionally records, as `servedBy`,
the provider whose client actually produced the answer (the first
component `get_llm` returns), so that the relation between the reported
`llm_used` and the actual producer is expressible. -/

/-- `LLMConstants.VALID_LLM_MODELS`. -/
def validModels : List String := ["ollama_cloud", "ollama_local", "openai"]

/-- The math keyword list of `RAGService._generate` (source line 97),
verbatim, duplicate included. -/
def mathKeywords : List String :=
  ["integral", "derivative", "calculate", "solve", "∫", "∂", "lim", "sum", "∫",
   "d/dx", "dx", "cos", "sin", "tan", "log", "ln", "exp", "sqrt", "π", "pi",
   "alpha", "beta", "gamma", "delta"]

/-- `re.search(r'\$.*\$', q)`: two `$` on one line (`.` does not match a
newline). -/
def hasDollarPair (s : List Char) : Bool :=
  (s.splitOn '\n').any (fun seg => 2 ≤ seg.count '$')

/-- `re.search(r'\\[a-zA-Z]+', q)`: a backslash followed by an ASCII
letter. -/
def hasBackslashLetter : List Char → Bool
  | [] => false
  | '\\' :: c :: rest => c.isAlpha || hasBackslashLetter (c :: rest)
  | _ :: rest => hasBackslashLetter rest

/-- The math-question heuristic of `RAGService._generate` (source lines
97-98).  Keyword containment is checked on the lowercased question
(ASCII lowering; the keyword set is lowercase ASCII plus case-less
symbols), the two regexes on the original question. -/
def isMathQuestion (q : String) : Bool :=
  mathKeywords.any (fun kw => containsSub (q.toList.map Char.toLower) kw.toList) ||
    hasDollarPair q.toList || hasBackslashLetter q.toList

/-- Python truthiness of the `llm_model` argument (`if llm_model:`):
`None` and the empty string are both falsy. -/
def modelTruthy : Option String → Bool
  | none => false
  | some s => !(s == "")

/-- `validate_collection_name` failure condition (validation.py lines
25-29): a truthy name whose `strip()` is empty.  Note the empty string is
falsy and passes. -/
def collectionNameBad (name : String) : Bool :=
  !(name == "") && (pyStrip name.toList).isEmpty

structure ChatEnv where
  llm : LlmEnv
  retrieveResult : String → Except String (List String)

structure ChatReq where
  collectionName : String
  message : String
  temperature : ℚ
  topK : ℤ

structure ChatOutcome where
  answer : String
  sources : List String
  llmUsed : String
  servedBy : Provider
  deriving DecidableEq, Repr

inductive Ev where
  | validationFail
  | retrieveCall
  | invokeCall (p : Provider)
  deriving DecidableEq, Repr

/-- `RAGService._generate` (source lines 83-196): classify the question,
override the model with "openai" for math questions when OpenAI is
available, resolve a client via `get_llm` (whose returned actual name is
discarded by the source: `llm, _ = ...`), and invoke it.  The provider
that produced the answer is reported alongside the text. -/
def generateStep (env : ChatEnv) (question : String) (model : String) :
    Except String (String × Provider) × List Ev :=
  let target := if isMathQuestion question then
      (if env.llm.availOpenai then "openai" else model)
    else model
  match getLlm env.llm target with
  | .error e => (.error e, [])
  | .ok p =>
    match env.llm.invokeResult p with
    | .ok text => (.ok (text, p), [Ev.invokeCall p])
    | .error e => (.error e, [Ev.invokeCall p])

/-- `if llm_model is None: llm_model = self.llm_service.get_primary_llm_type()`
(source lines 221-222).  Note an empty string is not `None` and stays
unresolved. -/
def resolveModel (env : LlmEnv) (model : Option String) : String :=
  match model with
  | none => getPrimaryLlmType env
  | some s => s

/-- The `try` body of `RAGService.chat` (source lines 212-257): validation
in source order with fail-fast, model resolution, then the
retrieve → generate graph.  An error carries the message and the value the
local `llm_model` variable holds when the exception is raised — the
fallback dispatch of the `except` block branches on that value. -/
def chatTry (env : ChatEnv) (req : ChatReq) (model : Option String) :
    Except (String × Option String) ChatOutcome × List Ev :=
  if modelTruthy model && !(validModels.contains (model.getD "")) then
    (.error ("Invalid LLM model specified", model), [Ev.validationFail])
  else if ¬ (0 ≤ req.temperature ∧ req.temperature ≤ 2) then
    (.error ("Temperature must be between 0 and 2", model), [Ev.validationFail])
  else if ¬ (1 ≤ req.topK ∧ req.topK ≤ 20) then
    (.error ("Top-K must be between 1 and 20", model), [Ev.validationFail])
  else if collectionNameBad req.collectionName then
    (.error ("Collection name cannot be empty", model), [Ev.validationFail])
  else
    match env.retrieveResult req.collectionName with
    | .error e =>
      (.error ("Document retrieval failed: " ++ e, some (resolveModel env.llm model)),
        [Ev.retrieveCall])
    | .ok ctx =>
      match generateStep env req.message (resolveModel env.llm model) with
      | (.error e, evs) =>
        (.error (e, some (resolveModel env.llm model)), Ev.retrieveCall :: evs)
      | (.ok (ans, p), evs) =>
        (.ok ⟨ans, ctx, resolveModel env.llm model, p⟩, Ev.retrieveCall :: evs)

/-- `RAGService.chat` with its `except` fallback recursion (source lines
259-280): on any exception, retry with "ollama_local" when the current
model is "ollama_cloud", with "openai" when it is "ollama_local", and
re-raise otherwise.  The recursion is embedded with a fuel bound of 4;
the chain cloud → local → openai re-raises after at most three attempts,
so the fuel-0 branch is unreachable from `chat` (`chatAux_fuel_irrel`,
below). -/
def chatAux (env : ChatEnv) (req : ChatReq) :
    Nat → Option String → Except String ChatOutcome × List Ev
  | 0, model =>
    match chatTry env req model with
    | (.ok out, tr) => (.ok out, tr)
    | (.error (e, _), tr) => (.error e, tr)
  | fuel + 1, model =>
    match chatTry env req model with
    | (.ok out, tr) => (.ok out, tr)
    | (.error (e, cur), tr) =>
      if cur = some "ollama_cloud" then
        match chatAux env req fuel (some "ollama_local") with
        | (r, tr2) => (r, tr ++ tr2)
      else if cur = some "ollama_local" then
        match chatAux env req fuel (some "openai") with
        | (r, tr2) => (r, tr ++ tr2)
      else (.error e, tr)

/-- `RAGService.chat` (source lines 198-280). -/
def chat (env : ChatEnv) (req : ChatReq) (model : Option String) :
    Except String ChatOutcome × List Ev :=
  chatAux env req 4 model

/-! ## DocumentProcessor.process_document (document_processor.py, lines 167-289)

The document record keeps the lifecycle fields the pipeline mutates; the
environment abstracts the three effectful steps (loading, splitting,
per-batch vector-store insertion).  The trace lists the batch indices on
which `add_documents` was attempted, in order. -/

structure DocRecord where
  status : String
  chunkCount : Option Nat
  errorMessage : Option String
  vectorIds : Option (List Nat)
  metaTotalChunks : Option Nat
  processedAt : Bool
  deriving DecidableEq, Repr

structure IngestEnv where
  loadResult : Except String (List String)
  splitResult : List String → Except String (List String)
  addBatch : Nat → Except String (List Nat)

/-- `batch_size = 10` (source line 252). -/
def batchSize : Nat := 10

/-- The number of batches `range(0, len(texts), batch_size)` yields. -/
def numBatches (n : Nat) : Nat := (n + batchSize - 1) / batchSize

/-- The `for i in range(0, len(texts), batch_size)` loop of source lines
255-266: insert batches in order, accumulating ids; the first failing
batch aborts the loop (the exception propagates to the handler), and no
batch is re-attempted.  Returns the attempted batch indices and the
accumulated ids or the error. -/
def runBatches (env : IngestEnv) : List Nat → List Nat → List Nat × Except String (List Nat)
  | [], acc => ([], .ok acc)
  | i :: rest, acc =>
    match env.addBatch i with
    | .ok ids =>
      match runBatches env rest (acc ++ ids) with
      | (tried, res) => (i :: tried, res)
    | .error e => ([i], .error e)

/-- The chunk list the pipeline would produce, when loading and splitting
succeed. -/
def chunksOf (env : IngestEnv) : Option (List String) :=
  match env.loadResult with
  | .error _ => none
  | .ok pages => (env.splitResult pages).toOption

/-- The batch indices the pipeline plans. -/
def plannedBatches (env : IngestEnv) : Nat :=
  numBatches ((chunksOf env).getD []).length

/-- The vector ids accumulated over all planned batches (meaningful when
every batch succeeds). -/
def collectedIds (env : IngestEnv) : List Nat :=
  (List.range (plannedBatches env)).foldl
    (fun acc i => acc ++ ((env.addBatch i).toOption.getD [])) []

/-- `DocumentProcessor.process_document` on an existing document (source
lines 184-289): mark `processing`, load, split, insert in batches, then
either mark `completed` recording chunk count, vector ids and timestamp,
or — on any exception at any step — mark `failed` with the exception's
message.  Returns the final record and the attempted batch indices. -/
def processDocument (env : IngestEnv) (doc : DocRecord) : DocRecord × List Nat :=
  let docP := { doc with status := "processing" }
  match env.loadResult with
  | .error e => ({ docP with status := "failed", errorMessage := some e }, [])
  | .ok pages =>
    match env.splitResult pages with
    | .error e => ({ docP with status := "failed", errorMessage := some e }, [])
    | .ok chunks =>
      match runBatches env (List.range (numBatches chunks.length)) [] with
      | (tried, .error e) =>
        ({ docP with status := "failed", errorMessage := some e }, tried)
      | (tried, .ok ids) =>
        ({ docP with
            status := "completed",
            chunkCount := some chunks.length,
            vectorIds := some ids,
            metaTotalChunks := some chunks.length,
            processedAt := true }, tried)

/-- The error message the pipeline captures, derived from the first failing
step in pipeline order (load, split, batches). -/
def ingestError (env : IngestEnv) : Option String :=
  match env.loadResult with
  | .error e => some e
  | .ok pages =>
    match env.splitResult pages with
    | .error e => some e
    | .ok chunks =>
      match (runBatches env (List.range (numBatches chunks.length)) []).2 with
      | .error e => some e
      | .ok _ => none

/-! ## Shared auxiliary definitions for the claim statements -/

/-- The four messages `core/validation.py` raises as `HTTPException`
details. -/
def validationMsgs : List String :=
  ["Invalid LLM model specified", "Temperature must be between 0 and 2",
   "Top-K must be between 1 and 20", "Collection name cannot be empty"]

/-- A chat request that fails one of the four validation checks of
`RAGService.chat` (an out-of-bounds temperature or top-k, a truthy
whitespace-only collection name, or a truthy provider id outside
`VALID_LLM_MODELS`). -/
def badParams (req : ChatReq) (model : Option String) : Prop :=
  ¬ (0 ≤ req.temperature ∧ req.temperature ≤ 2) ∨
    ¬ (1 ≤ req.topK ∧ req.topK ≤ 20) ∨
    collectionNameBad req.collectionName = true ∨
    (modelTruthy model = true ∧ validModels.contains (model.getD "") = false)

/-- The key set of the `defaults` dict (fixed, independent of the
metadata). -/
def defaultKeys : List String :=
  ["collection_name", "content_type", "language", "source_type", "author",
   "publisher", "date", "keywords", "description"]

/-! Concrete instances used by counterexamples and witnesses. -/

/-- 15 `a`s, a period, 14 `a`s: no math spans, one sentence terminator at
index 15. -/
def exText : List Char := ("aaaaaaaaaaaaaaa." ++ "aaaaaaaaaaaaaa").toList

/-- The first window `split_text` produces on `exText` with
`chunk_size = 10`, `chunk_overlap = 0`. -/
def exWindow : List Char := "aaaaaaaaaaaaaaa.".toList

/-- Chat environment: cloud slot down, local and openai slots up, every
invocation succeeding, retrieval succeeding. -/
def envC2 : ChatEnv := ⟨⟨false, true, true, fun _ => .ok "the answer"⟩, fun _ => .ok ["ctx"]⟩

/-- A valid math-flavoured request (temperature 1, inside the 0..2
bounds). -/
def reqC2 : ChatReq := ⟨"docs", "calculate the integral of x squared", 1, 5⟩

/-- A request with an out-of-bounds temperature. -/
def reqBadTemp : ChatReq := ⟨"docs", "hello", 5, 5⟩

/-- A request with an out-of-bounds top-k. -/
def reqBadTopK : ChatReq := ⟨"docs", "hello", 1, 0⟩

/-- LLM environment: cloud slot empty, local and openai slots initialised
but failing on every invocation. -/
def envC4 : LlmEnv := ⟨false, true, true, fun _ => .error "down"⟩

/-- LLM environment: cloud slot empty, local and openai slots up and
succeeding. -/
def envC5 : LlmEnv := ⟨false, true, true, fun _ => .ok "B"⟩

/-- LLM environment with no slot initialised. -/
def envNone : LlmEnv := ⟨false, false, false, fun _ => .error "unused"⟩

/-- LLM environment with every slot initialised but every invocation
failing. -/
def envAllDown : LlmEnv := ⟨true, true, true, fun _ => .error "down"⟩

/-- Example metadata as the ingestion pipeline sends it. -/
def mEx : Metadata :=
  [("filename", .s "paper.pdf"), ("document_id", .s "7"), ("collection", .s "c1")]

/-- `normalizeMetadata mEx` spelled out. -/
def mExNorm : Metadata :=
  [("filename", .s "paper.pdf"), ("document_id", .i 7), ("collection", .s "c1"),
   ("title", .s "paper"), ("subject", .s "paper"), ("name", .s "paper"),
   ("collection_name", .s "c1"), ("content_type", .s "text"), ("language", .s "en"),
   ("source_type", .s "document"), ("author", .s "Unknown"), ("publisher", .s "Unknown"),
   ("date", .s "Unknown"), ("keywords", .s ""), ("description", .s "paper")]

/-! # Theorems -/

/-! ## Splitter: termination and window bounds -/

theorem nextStart_gt (cs co : Nat) (m : List Char) (start : Nat) :
    start < nextStart cs co m start := by
  unfold nextStart
  omega

theorem findCandidate_lt (m : List Char) :
    ∀ cnt lo i, findCandidate m lo cnt = some i → i < lo + cnt := by
  intro cnt
  induction cnt with
  | zero => intro lo i h; simp [findCandidate] at h
  | succ n ih =>
    intro lo i h
    rw [findCandidate] at h
    split at h
    · cases h; omega
    · have := ih (lo + 1) i h; omega

theorem findSplitPoint_le (cs : Nat) (m : List Char) (start : Nat) :
    findSplitPoint cs m start ≤ start + cs + 100 := by
  simp only [findSplitPoint]
  split
  case h_1 i h => have := findCandidate_lt m _ _ _ h; omega
  case h_2 => omega

theorem chunkLoop_fuel_irrel (f : List Char → List Char) (cs co : Nat) (m : List Char) :
    ∀ f1 f2 start, m.length - start < f1 → m.length - start < f2 →
      chunkLoop f cs co m f1 start = chunkLoop f cs co m f2 start := by
  intro f1
  induction f1 with
  | zero => intro f2 start h1 h2; omega
  | succ a ih =>
    intro f2 start h1 h2
    match f2, h2 with
    | b + 1, h2 =>
      rw [chunkLoop, chunkLoop]
      by_cases hs : start < m.length
      · rw [if_pos hs, if_pos hs]
        by_cases hb : m.length ≤ start + cs
        · rw [if_pos hb, if_pos hb]
        · rw [if_neg hb, if_neg hb]
          have hadv := nextStart_gt cs co m start
          rw [ih b (nextStart cs co m start) (by omega) (by omega)]
      · rw [if_neg hs, if_neg hs]

theorem chunkLoop_id_bound (cs co : Nat) (m : List Char) :
    ∀ fuel start w, w ∈ (chunkLoop (fun c => c) cs co m fuel start).dropLast →
      w.length ≤ cs + 100 := by
  intro fuel
  induction fuel with
  | zero => intro start w h; simp [chunkLoop] at h
  | succ a ih =>
    intro start w h
    rw [chunkLoop] at h
    by_cases hs : start < m.length
    · rw [if_pos hs] at h
      by_cases hb : m.length ≤ start + cs
      · rw [if_pos hb] at h; simp at h
      · rw [if_neg hb] at h
        rcases hr : chunkLoop (fun c => c) cs co m a (nextStart cs co m start) with _ | ⟨c2, l⟩
        · rw [hr] at h; simp at h
        · rw [hr, List.dropLast_cons₂] at h
          rcases List.mem_cons.mp h with hw | hw
          · subst hw
            have h1 := findSplitPoint_le cs m start
            simp only [List.length_take]
            omega
          · exact ih (nextStart cs co m start) w (by rw [hr]; exact hw)
    · rw [if_neg hs] at h; simp at h

/-- C10: `split_text` terminates on every input text and every
`chunk_size` / `chunk_overlap` choice (including `chunk_overlap ≥
chunk_size`): the window start strictly advances every iteration, since it
is updated to `max(start + 1, split_point - chunk_overlap)` — consequently
the windowing loop needs at most `len(modified_text) - start` iterations,
and its result is independent of any fuel bound dominating that count. -/
theorem c10_split_text_terminates :
    (∀ (cs co : Nat) (m : List Char) (start : Nat), start < nextStart cs co m start) ∧
    (∀ (f : List Char → List Char) (cs co : Nat) (m : List Char) (f1 f2 start : Nat),
      m.length - start < f1 → m.length - start < f2 →
      chunkLoop f cs co m f1 start = chunkLoop f cs co m f2 start) :=
  ⟨nextStart_gt, fun f cs co m f1 f2 start h1 h2 => chunkLoop_fuel_irrel f cs co m f1 f2 start h1 h2⟩

theorem c10_witness :
    0 < nextStart 10 0 exText 0 ∧
    ((exText.length - 0 < 31 ∧ exText.length - 0 < 40) ∧
      chunkLoop (fun c => c) 10 0 exText 31 0 = chunkLoop (fun c => c) 10 0 exText 40 0) :=
  ⟨c10_split_text_terminates.1 10 0 exText 0,
    ⟨⟨by decide, by decide⟩,
      c10_split_text_terminates.2 (fun c => c) 10 0 exText 31 40 0 (by decide) (by decide)⟩⟩

/-- C8 (amended): every non-final chunk, measured on the placeholder-bearing
text before math restoration (`rawWindows`, which shares the windowing
control flow of `splitText` literally, through `chunkLoop`), has length at
most `chunk_size + 100`: the sentence-boundary search may overshoot the
ideal boundary by up to 100 characters.  Placeholder restoration may then
lengthen a chunk further by the expansion of every math span the chunk
contains, not only one span straddling the ideal boundary. -/
theorem c8_nonfinal_window_bound (cs co : Nat) (m : List Char) :
    ∀ w ∈ (rawWindows cs co m).dropLast, w.length ≤ cs + 100 := by
  intro w hw
  exact chunkLoop_id_bound cs co m (m.length + 1) 0 w hw

theorem c8_witness :
    exWindow ∈ (rawWindows 10 0 exText).dropLast ∧ exWindow.length ≤ 10 + 100 :=
  ⟨by decide, c8_nonfinal_window_bound 10 0 exText exWindow (by decide)⟩

/-- C8 (counterexample): on a 30-character text with no math spans and a
sentence terminator at index 15, `split_text` with `chunk_size = 10`,
`chunk_overlap = 0` produces three chunks whose first (non-final) chunk has
length 16 > 10 = `chunk_size` + the length of the (non-existent) straddling
math span — refuting the claimed bound. -/
theorem c8_counterexample :
    (extractPlaceholders exText).2 = [] ∧
    (splitText 10 0 exText).length = 3 ∧
    ((splitText 10 0 exText).headD []).length = 16 ∧
    ¬ ((splitText 10 0 exText).headD []).length ≤ 10 := by
  refine ⟨by decide, by decide, by decide, by decide⟩

/-- C1: `split_text("hello $x$ world")` with `chunk_size = 1000`,
`chunk_overlap = 200` returns a single chunk in which the inline math span
`$x$` was replaced by the placeholder `__LATEX_INLINE_MATH_0__` and never
restored: the `break` path of the windowing loop (source lines 59-61)
appends `modified_text[start:]` without running the placeholder
restoration, so the math span appears, byte-for-byte, in no output chunk at
all — contradicting the claimed hard invariant (and the splitter's own
docstring "Text splitter that preserves LaTeX math expressions"). -/
theorem c1_final_chunk_unrestored :
    splitText 1000 200 "hello $x$ world".toList =
      ["hello __LATEX_INLINE_MATH_0__ world".toList] ∧
    containsSub "hello __LATEX_INLINE_MATH_0__ world".toList "$x$".toList = false := by
  refine ⟨by decide, by decide⟩

/-! ## Metadata normalisation: dict lemmas and idempotence -/

theorem mget_mset_self (m : Metadata) (k : String) (v : MVal) :
    mget (mset m k v) k = some v := by
  induction m with
  | nil => simp [mget, mset]
  | cons kv t ih =>
    obtain ⟨a, w⟩ := kv
    by_cases h : a = k
    · simp [mget, mset, h]
    · simp [mget, mset, h, ih]

theorem mget_mset_ne (m : Metadata) (k k2 : String) (v : MVal) (h : k ≠ k2) :
    mget (mset m k v) k2 = mget m k2 := by
  induction m with
  | nil => simp [mget, mset, h]
  | cons kv t ih =>
    obtain ⟨a, w⟩ := kv
    by_cases ha : a = k
    · subst ha; simp [mget, mset, h]
    · simp only [mset, if_neg ha, mget]
      by_cases ha2 : a = k2
      · simp [ha2]
      · simp [ha2, ih]

theorem mset_eq_self (m : Metadata) (k : String) (v : MVal) (h : mget m k = some v) :
    mset m k v = m := by
  induction m with
  | nil => simp [mget] at h
  | cons kv t ih =>
    obtain ⟨a, w⟩ := kv
    by_cases ha : a = k
    · simp only [mget, if_pos ha] at h
      cases h
      simp [mset, ha]
    · simp only [mget, if_neg ha] at h
      simp [mset, ha, ih h]

theorem mget_applyDefaults_present (ds : List (String × MVal)) :
    ∀ (m : Metadata) (k : String), (mget m k).isSome →
      mget (applyDefaults m ds) k = mget m k := by
  induction ds with
  | nil => intro m k _; rfl
  | cons kv ds ih =>
    intro m k h
    simp only [applyDefaults, List.foldl_cons]
    by_cases hg : (mget m kv.1).isSome
    · rw [if_pos hg]
      exact ih m k h
    · rw [if_neg hg]
      by_cases hk : kv.1 = k
      · subst hk; exact absurd h hg
      · have hpres : mget (mset m kv.1 kv.2) k = mget m k := mget_mset_ne m kv.1 k kv.2 hk
        show mget (applyDefaults (mset m kv.1 kv.2) ds) k = mget m k
        rw [ih (mset m kv.1 kv.2) k (by rw [hpres]; exact h), hpres]

theorem mget_applyDefaults_not_mem (ds : List (String × MVal)) :
    ∀ (m : Metadata) (k : String), k ∉ ds.map Prod.fst →
      mget (applyDefaults m ds) k = mget m k := by
  induction ds with
  | nil => intro m k _; rfl
  | cons kv ds ih =>
    intro m k h
    have hk : kv.1 ≠ k := by
      intro he; exact h (by simp [he])
    have hrest : k ∉ ds.map Prod.fst := by
      intro hin; exact h (by simp [hin])
    simp only [applyDefaults, List.foldl_cons]
    by_cases hg : (mget m kv.1).isSome
    · rw [if_pos hg]; exact ih m k hrest
    · rw [if_neg hg]
      show mget (applyDefaults (mset m kv.1 kv.2) ds) k = mget m k
      rw [ih (mset m kv.1 kv.2) k hrest, mget_mset_ne m kv.1 k kv.2 hk]

theorem applyDefaults_key_present (ds : List (String × MVal)) :
    ∀ (m : Metadata) (k : String), k ∈ ds.map Prod.fst →
      (mget (applyDefaults m ds) k).isSome := by
  induction ds with
  | nil => intro m k h; simp at h
  | cons kv ds ih =>
    intro m k h
    simp only [applyDefaults, List.foldl_cons]
    by_cases hk : k = kv.1
    · by_cases hg : (mget m kv.1).isSome
      · rw [if_pos hg]
        show (mget (applyDefaults m ds) k).isSome
        rw [mget_applyDefaults_present ds m k (hk ▸ hg)]
        exact hk ▸ hg
      · rw [if_neg hg]
        have hset : (mget (mset m kv.1 kv.2) k).isSome := by
          rw [hk, mget_mset_self]; rfl
        show (mget (applyDefaults (mset m kv.1 kv.2) ds) k).isSome
        rw [mget_applyDefaults_present ds (mset m kv.1 kv.2) k hset]
        exact hset
    · rcases List.mem_map.mp h with ⟨p, hp, hfst⟩
      rcases List.mem_cons.mp hp with he | hp2
      · subst he; exact absurd hfst.symm hk
      · have hmem : k ∈ ds.map Prod.fst := List.mem_map.mpr ⟨p, hp2, hfst⟩
        by_cases hg : (mget m kv.1).isSome
        · rw [if_pos hg]; exact ih m k hmem
        · rw [if_neg hg]; exact ih (mset m kv.1 kv.2) k hmem

theorem applyDefaults_id (ds : List (String × MVal)) :
    ∀ (m : Metadata), (∀ kv ∈ ds, (mget m kv.1).isSome) → applyDefaults m ds = m := by
  induction ds with
  | nil => intro m _; rfl
  | cons kv ds ih =>
    intro m h
    simp only [applyDefaults, List.foldl_cons]
    rw [if_pos (h kv (List.mem_cons_self kv ds))]
    exact ih m (fun p hp => h p (List.mem_cons_of_mem kv hp))

theorem pyInt_fix (v w : MVal) (h : pyInt v = some w) : pyInt w = some w := by
  cases v with
  | i n => cases h; rfl
  | b b0 => cases h; rfl
  | s s0 =>
    simp only [pyInt, Option.map_eq_some'] at h
    rcases h with ⟨n, _, hw⟩
    subst hw; rfl

theorem coerceIntField_spec (m m2 : Metadata) (key : String)
    (h : coerceIntField m key = some m2) :
    (∀ k, k ≠ key → mget m2 k = mget m k) ∧
    (mget m2 key = none ∨ ∃ w, mget m2 key = some w ∧ pyInt w = some w) := by
  rcases hg : mget m key with _ | v
  · have hm : coerceIntField m key = some m := by unfold coerceIntField; rw [hg]
    rw [hm] at h; cases h
    exact ⟨fun k _ => rfl, Or.inl hg⟩
  · have hm : coerceIntField m key = Option.map (mset m key) (pyInt v) := by
      unfold coerceIntField; rw [hg]
    rw [hm] at h
    rcases hp : pyInt v with _ | w
    · rw [hp] at h; cases h
    · rw [hp, Option.map_some'] at h
      cases h
      constructor
      · intro k hk
        exact mget_mset_ne m key k w (fun he => hk he.symm)
      · right
        exact ⟨w, mget_mset_self m key w, pyInt_fix v w hp⟩

theorem coerceIntField_fix (m : Metadata) (key : String)
    (h : mget m key = none ∨ ∃ w, mget m key = some w ∧ pyInt w = some w) :
    coerceIntField m key = some m := by
  rcases h with h | ⟨w, hw, hfix⟩
  · unfold coerceIntField; rw [h]
  · have hm : coerceIntField m key = Option.map (mset m key) (pyInt w) := by
      unfold coerceIntField; rw [hw]
    rw [hm, hfix, Option.map_some', mset_eq_self m key w hw]

theorem metaDefaults_keys (m : Metadata) : (metaDefaults m).map Prod.fst = defaultKeys := rfl

/-- The shape every successful output of `normalizeMetadata` has: title
present and mirrored into the alias fields, the three numeric fields
absent or `int()`-fixed, and every default key present. -/
theorem normalize_shape (m M : Metadata) (h : normalizeMetadata m = some M) :
    ∃ tv, mget M "title" = some tv ∧ mget M "subject" = some tv ∧ mget M "name" = some tv ∧
      (mget M "document_id" = none ∨
        ∃ w, mget M "document_id" = some w ∧ pyInt w = some w) ∧
      (mget M "chunk_index" = none ∨
        ∃ w, mget M "chunk_index" = some w ∧ pyInt w = some w) ∧
      (mget M "total_chunks" = none ∨
        ∃ w, mget M "total_chunks" = some w ∧ pyInt w = some w) ∧
      (∀ k ∈ defaultKeys, (mget M k).isSome) := by
  unfold normalizeMetadata at h
  rcases h1 : ensureTitle m with _ | m1
  · simp [h1] at h
  simp only [h1] at h
  rcases ht : mget m1 "title" with _ | tv
  · simp [ht] at h
  simp only [ht] at h
  rcases h3 : coerceIntField (mirrorTitle m1 tv) "document_id" with _ | m3
  · simp [h3] at h
  simp only [h3] at h
  rcases h4 : coerceIntField m3 "chunk_index" with _ | m4
  · simp [h4] at h
  simp only [h4] at h
  rcases h5 : coerceIntField m4 "total_chunks" with _ | m5
  · simp [h5] at h
  simp only [h5, Option.some_inj] at h
  subst h
  obtain ⟨hp3, hf3⟩ := coerceIntField_spec _ _ _ h3
  obtain ⟨hp4, hf4⟩ := coerceIntField_spec _ _ _ h4
  obtain ⟨hp5, hf5⟩ := coerceIntField_spec _ _ _ h5
  have hm2t : mget (mirrorTitle m1 tv) "title" = some tv := by
    unfold mirrorTitle
    rw [mget_mset_ne _ _ _ _ (by decide), mget_mset_ne _ _ _ _ (by decide), ht]
  have hm2s : mget (mirrorTitle m1 tv) "subject" = some tv := by
    unfold mirrorTitle
    rw [mget_mset_ne _ _ _ _ (by decide), mget_mset_self]
  have hm2n : mget (mirrorTitle m1 tv) "name" = some tv := by
    unfold mirrorTitle
    rw [mget_mset_self]
  have h5t : mget m5 "title" = some tv := by
    rw [hp5 _ (by decide), hp4 _ (by decide), hp3 _ (by decide), hm2t]
  have h5s : mget m5 "subject" = some tv := by
    rw [hp5 _ (by decide), hp4 _ (by decide), hp3 _ (by decide), hm2s]
  have h5n : mget m5 "name" = some tv := by
    rw [hp5 _ (by decide), hp4 _ (by decide), hp3 _ (by decide), hm2n]
  have h5d : mget m5 "document_id" = none ∨
      ∃ w, mget m5 "document_id" = some w ∧ pyInt w = some w := by
    rw [hp5 _ (by decide), hp4 _ (by decide)]; exact hf3
  have h5c : mget m5 "chunk_index" = none ∨
      ∃ w, mget m5 "chunk_index" = some w ∧ pyInt w = some w := by
    rw [hp5 _ (by decide)]; exact hf4
  have hout : ∀ k : String, k ∉ defaultKeys →
      mget (applyDefaults m5 (metaDefaults m5)) k = mget m5 k := by
    intro k hk
    exact mget_applyDefaults_not_mem _ m5 k (by rw [metaDefaults_keys]; exact hk)
  refine ⟨tv, ?_, ?_, ?_, ?_, ?_, ?_, ?_⟩
  · rw [hout _ (by decide), h5t]
  · rw [hout _ (by decide), h5s]
  · rw [hout _ (by decide), h5n]
  · rw [hout _ (by decide)]; exact h5d
  · rw [hout _ (by decide)]; exact h5c
  · rw [hout _ (by decide)]; exact hf5
  · intro k hk
    exact applyDefaults_key_present (metaDefaults m5) m5 k (by rw [metaDefaults_keys]; exact hk)

/-- Normalising a map of the normalised shape is the identity. -/
theorem normalize_of_shape (M : Metadata) (tv : MVal)
    (ht : mget M "title" = some tv) (hs : mget M "subject" = some tv)
    (hn : mget M "name" = some tv)
    (hd : mget M "document_id" = none ∨
      ∃ w, mget M "document_id" = some w ∧ pyInt w = some w)
    (hc : mget M "chunk_index" = none ∨
      ∃ w, mget M "chunk_index" = some w ∧ pyInt w = some w)
    (htc : mget M "total_chunks" = none ∨
      ∃ w, mget M "total_chunks" = some w ∧ pyInt w = some w)
    (hdef : ∀ k ∈ defaultKeys, (mget M k).isSome) :
    normalizeMetadata M = some M := by
  have h1 : ensureTitle M = some M := by
    unfold ensureTitle
    rw [if_pos (by rw [ht]; rfl)]
  have hmirror : mirrorTitle M tv = M := by
    unfold mirrorTitle
    rw [mset_eq_self M "subject" tv hs, mset_eq_self M "name" tv hn]
  have hid : applyDefaults M (metaDefaults M) = M := by
    refine applyDefaults_id (metaDefaults M) M fun kv hkv => hdef kv.1 ?_
    rw [← metaDefaults_keys M]
    exact List.mem_map_of_mem Prod.fst hkv
  unfold normalizeMetadata
  rw [h1]
  simp only [ht, hmirror, coerceIntField_fix M "document_id" hd,
    coerceIntField_fix M "chunk_index" hc, coerceIntField_fix M "total_chunks" htc, hid]

/-- C3: the insertion-time metadata normalisation of
`VectorStoreService.add_documents` is idempotent: whenever normalising `m`
succeeds with result `M` (title derived/ensured and truncated, mirrored
into the `subject`/`name` aliases, `document_id`/`chunk_index`/
`total_chunks` coerced with `int()`, fixed defaults filled), normalising
`M` again succeeds and returns `M` unchanged. -/
theorem c3_normalize_idempotent (m M : Metadata) (h : normalizeMetadata m = some M) :
    normalizeMetadata M = some M := by
  rcases normalize_shape m M h with ⟨tv, ht, hs, hn, hd, hc, htc, hdef⟩
  exact normalize_of_shape M tv ht hs hn hd hc htc hdef

theorem c3_witness :
    normalizeMetadata mEx = some mExNorm ∧ normalizeMetadata mExNorm = some mExNorm :=
  ⟨by decide, c3_normalize_idempotent mEx mExNorm (by decide)⟩

/-! ## delete_documents_by_id -/

/-- C7 (amended): `delete_documents_by_id` removes all and only the
entries whose `document_id` equals the argument; when nothing matches
(including a document with no vectors) it leaves the store unchanged,
computes and logs a deleted count of 0, raises no exception — and returns
no value at all (the Python function body has no `return` expression, so
the caller receives `None`, not the count); a missing collection is a
logged no-op.  (On a healthy store no code path raises: the `except`
clause only re-raises backing-client failures.) -/
theorem c7_delete_all_and_only (es : List VecEntry) (d : Int) :
    (∀ e : VecEntry,
      e ∈ ((deleteDocumentsById (some es) d).store.getD []) ↔ e ∈ es ∧ ¬ e.docId = d) ∧
    ((∀ e ∈ es, ¬ e.docId = d) →
      (deleteDocumentsById (some es) d).store = some es ∧
      (deleteDocumentsById (some es) d).loggedDeleted = some 0 ∧
      (deleteDocumentsById (some es) d).returned = none) ∧
    (deleteDocumentsById none d).returned = none := by
  refine ⟨?_, ?_, rfl⟩
  · intro e
    show e ∈ es.filter (fun e => !(e.docId == d)) ↔ _
    rw [List.mem_filter]
    simp
  · intro hnone
    have hfil : es.filter (fun e => !(e.docId == d)) = es := by
      rw [List.filter_eq_self]
      intro e he
      simp [hnone e he]
    refine ⟨?_, ?_, rfl⟩
    · show some (es.filter (fun e => !(e.docId == d))) = some es
      rw [hfil]
    · show some ((es.length : Int) - ((es.filter (fun e => !(e.docId == d))).length : Int)) = some 0
      rw [hfil]
      simp

theorem c7_witness :
    ((⟨1, 7⟩ : VecEntry) ∈ ((deleteDocumentsById (some [⟨1, 7⟩]) 42).store.getD []) ↔
      (⟨1, 7⟩ : VecEntry) ∈ [(⟨1, 7⟩ : VecEntry)] ∧ ¬ (7 : Int) = 42) ∧
    (deleteDocumentsById (some [⟨1, 7⟩]) 42).store = some [⟨1, 7⟩] ∧
    (deleteDocumentsById (some [⟨1, 7⟩]) 42).loggedDeleted = some 0 ∧
    (deleteDocumentsById (some [⟨1, 7⟩]) 42).returned = none :=
  ⟨(c7_delete_all_and_only [⟨1, 7⟩] 42).1 ⟨1, 7⟩,
    (c7_delete_all_and_only [⟨1, 7⟩] 42).2.1 (by decide)⟩

/-- C7 (counterexample): on a collection with no vectors for document 42,
the call is a no-op and raises nothing, but its return value is `None`,
not a deleted-count of 0 — the count is only computed and logged. -/
theorem c7_counterexample :
    (deleteDocumentsById (some []) 42).loggedDeleted = some 0 ∧
    (deleteDocumentsById (some []) 42).returned = none ∧
    ¬ (deleteDocumentsById (some []) 42).returned = some 0 := by
  refine ⟨by decide, by decide, by decide⟩

/-! ## LLMService: get_llm and invoke_with_fallback -/

theorem getLlm_ok_avail (env : LlmEnv) (s : String) (p : Provider)
    (h : getLlm env s = .ok p) : availOf env p = true := by
  unfold getLlm at h
  split at h
  · cases h; rename_i hc; simp only [Bool.and_eq_true] at hc; exact hc.2
  · split at h
    · cases h; rename_i hc; simp only [Bool.and_eq_true] at hc; exact hc.2
    · split at h
      · cases h; rename_i hc; simp only [Bool.and_eq_true] at hc; exact hc.2
      · split at h
        · cases h; assumption
        · split at h
          · cases h; assumption
          · split at h
            · cases h; assumption
            · cases h

theorem attemptOne_allfail (env : LlmEnv)
    (hfail : ∀ p, availOf env p = true → ∀ t, env.invokeResult p ≠ .ok t) (n : String) :
    ∃ tr, attemptOne env n = (tr, none) ∧ ∀ p ∈ tr, availOf env p = true := by
  unfold attemptOne
  rcases hg : getLlm env n with e | p
  · exact ⟨[], rfl, by intro p hp; simp at hp⟩
  · have hav := getLlm_ok_avail env n p hg
    dsimp only
    rcases hi : env.invokeResult p with e | t
    · refine ⟨[p], rfl, ?_⟩
      intro q hq
      simp only [List.mem_singleton] at hq
      subst hq; exact hav
    · exact absurd hi (hfail p hav t)

theorem fallbackLoop_allfail (env : LlmEnv)
    (hfail : ∀ p, availOf env p = true → ∀ t, env.invokeResult p ≠ .ok t) :
    ∀ names : List String,
      ∃ tr, fallbackLoop env names = (tr, .error allFailedMsg) ∧
        ∀ p ∈ tr, availOf env p = true := by
  intro names
  induction names with
  | nil => exact ⟨[], rfl, by intro p hp; simp at hp⟩
  | cons n rest ih =>
    obtain ⟨trA, hA, hA2⟩ := attemptOne_allfail env hfail n
    obtain ⟨trL, hL, hL2⟩ := ih
    refine ⟨trA ++ trL, ?_, ?_⟩
    · rw [fallbackLoop, hA, hL]
    · intro p hp
      rcases List.mem_append.mp hp with hp | hp
      · exact hA2 p hp
      · exact hL2 p hp

theorem invokeWithFallback_allfail (env : LlmEnv)
    (hfail : ∀ p, availOf env p = true → ∀ t, env.invokeResult p ≠ .ok t) (preferred : String) :
    ∃ tr, invokeWithFallback env preferred = (tr, .error allFailedMsg) ∧
      ∀ p ∈ tr, availOf env p = true := by
  obtain ⟨trA, hA, hA2⟩ := attemptOne_allfail env hfail preferred
  obtain ⟨trL, hL, hL2⟩ := fallbackLoop_allfail env hfail
    (["ollama_cloud", "ollama_local", "openai"].filter (fun n => !(n == preferred)))
  refine ⟨trA ++ trL, ?_, ?_⟩
  · rw [invokeWithFallback, hA, hL]
  · intro p hp
    rcases List.mem_append.mp hp with hp | hp
    · exact hA2 p hp
    · exact hL2 p hp

theorem invokeWithFallback_allavail_trace (env : LlmEnv)
    (hfail : ∀ p, availOf env p = true → ∀ t, env.invokeResult p ≠ .ok t)
    (hc : env.availCloud = true) (hl : env.availLocal = true) (ho : env.availOpenai = true)
    (preferred : String) (hp : preferred ∈ validModels) :
    (invokeWithFallback env preferred).1 =
      (if preferred = "ollama_cloud" then [Provider.cloud, Provider.local, Provider.openai]
       else if preferred = "ollama_local" then [Provider.local, Provider.cloud, Provider.openai]
       else [Provider.openai, Provider.cloud, Provider.local]) := by
  have hec : ∃ e, env.invokeResult .cloud = .error e := by
    rcases h : env.invokeResult .cloud with e | t
    · exact ⟨e, rfl⟩
    · exact absurd h (hfail .cloud (by simpa [availOf] using hc) t)
  have hel : ∃ e, env.invokeResult .local = .error e := by
    rcases h : env.invokeResult .local with e | t
    · exact ⟨e, rfl⟩
    · exact absurd h (hfail .local (by simpa [availOf] using hl) t)
  have heo : ∃ e, env.invokeResult .openai = .error e := by
    rcases h : env.invokeResult .openai with e | t
    · exact ⟨e, rfl⟩
    · exact absurd h (hfail .openai (by simpa [availOf] using ho) t)
  obtain ⟨ec, hec⟩ := hec
  obtain ⟨el, hel⟩ := hel
  obtain ⟨eo, heo⟩ := heo
  simp only [validModels, List.mem_cons, List.not_mem_nil, or_false] at hp
  rcases hp with hp | hp | hp <;> subst hp <;>
    simp [invokeWithFallback, fallbackLoop, attemptOne, getLlm, hc, hl, ho, hec, hel, heo]

/-- C4 (amended): when every available provider fails on invocation,
`invoke_with_fallback` raises the aggregate "All LLMs failed" error and
never returns a result; every invocation attempt is on an available
provider; and when all three provider slots are available and the
preferred id names one of them, every provider is attempted exactly once.
(When the preferred slot is unavailable, the attempt on the preferred name
already falls through to the highest-priority available provider, which
the fallback loop then attempts a second time — see the counterexample —
so the per-provider exactly-once guarantee needs all slots available.) -/
theorem c4_all_providers_fail (env : LlmEnv) (preferred : String)
    (hfail : ∀ p, availOf env p = true → ∀ t, env.invokeResult p ≠ .ok t) :
    (invokeWithFallback env preferred).2 = .error allFailedMsg ∧
    (∀ p ∈ (invokeWithFallback env preferred).1, availOf env p = true) ∧
    (env.availCloud = true → env.availLocal = true → env.availOpenai = true →
      preferred ∈ validModels →
      ∀ p : Provider, (invokeWithFallback env preferred).1.count p = 1) := by
  obtain ⟨tr, htr, hav⟩ := invokeWithFallback_allfail env hfail preferred
  refine ⟨by rw [htr], by rw [htr]; exact hav, ?_⟩
  intro hc hl ho hp p
  rw [invokeWithFallback_allavail_trace env hfail hc hl ho preferred hp]
  split
  · cases p <;> rfl
  · split
    · cases p <;> rfl
    · cases p <;> rfl

theorem c4_witness :
    (invokeWithFallback envAllDown "ollama_local").2 = .error allFailedMsg ∧
    (invokeWithFallback envAllDown "ollama_local").1.count Provider.cloud = 1 ∧
    (invokeWithFallback envAllDown "ollama_local").1.count Provider.local = 1 ∧
    (invokeWithFallback envAllDown "ollama_local").1.count Provider.openai = 1 := by
  have h := c4_all_providers_fail envAllDown "ollama_local"
    (by intro p _ t hcon; simp [envAllDown] at hcon)
  exact ⟨h.1, h.2.2 rfl rfl rfl (by decide) .cloud, h.2.2 rfl rfl rfl (by decide) .local,
    h.2.2 rfl rfl rfl (by decide) .openai⟩

/-- C4 (counterexample): with the cloud slot unavailable and the local and
openai slots available but failing on every invocation, preferred
"ollama_cloud": the preferred attempt already falls through to the local
provider, and the fallback loop then attempts the local provider a second
time — refuting "attempts each configured provider exactly once" and
"never attempts a provider a second time". -/
theorem c4_counterexample :
    invokeWithFallback envC4 "ollama_cloud" =
      ([Provider.local, Provider.local, Provider.openai], .error allFailedMsg) ∧
    (invokeWithFallback envC4 "ollama_cloud").1.count Provider.local = 2 := by
  refine ⟨by decide, by decide⟩

/-- C5: (a) when the preferred id names an available slot, `get_llm`
returns that slot; (b) when no slot is available, `get_llm` raises the
"No LLM available" error; (c) when the preferred slot is unavailable and
some slot is available, `invoke_with_fallback` resolves to the first
available provider in the fixed cloud → local → openai order, and when
that provider's invocation succeeds it returns its answer tagged with that
provider's id after exactly that one attempt — no later provider is ever
attempted. -/
theorem c5_preferred_unavailable_first_available (env : LlmEnv) :
    (∀ p : Provider, availOf env p = true → getLlm env (providerName p) = .ok p) ∧
    (env.availCloud = false → env.availLocal = false → env.availOpenai = false →
      ∀ s, getLlm env s =
        .error "No LLM available. Please check Ollama or OpenAI configuration.") ∧
    (∀ (q p : Provider) (t : String), availOf env q = false → firstAvail env = some p →
      env.invokeResult p = .ok t →
      invokeWithFallback env (providerName q) = ([p], .ok (t, providerName p))) := by
  refine ⟨?_, ?_, ?_⟩
  · intro p hp
    cases p <;> simp [availOf] at hp <;> simp [getLlm, providerName, hp]
  · intro hc hl ho s
    simp [getLlm, hc, hl, ho]
  · intro q p t hq hfa hi
    cases q <;> simp only [availOf] at hq
    · rcases hl : env.availLocal with _ | _
      · rcases ho : env.availOpenai with _ | _
        · simp [firstAvail, hq, hl, ho] at hfa
        · simp [firstAvail, hq, hl, ho] at hfa
          subst hfa
          simp [invokeWithFallback, attemptOne, getLlm, providerName, hq, hl, ho, hi]
      · simp [firstAvail, hq, hl] at hfa
        subst hfa
        simp [invokeWithFallback, attemptOne, getLlm, providerName, hq, hl, hi]
    · rcases hc : env.availCloud with _ | _
      · rcases ho : env.availOpenai with _ | _
        · simp [firstAvail, hq, hc, ho] at hfa
        · simp [firstAvail, hq, hc, ho] at hfa
          subst hfa
          simp [invokeWithFallback, attemptOne, getLlm, providerName, hq, hc, ho, hi]
      · simp [firstAvail, hc] at hfa
        subst hfa
        simp [invokeWithFallback, attemptOne, getLlm, providerName, hq, hc, hi]
    · rcases hc : env.availCloud with _ | _
      · rcases hl : env.availLocal with _ | _
        · simp [firstAvail, hq, hc, hl] at hfa
        · simp [firstAvail, hq, hc, hl] at hfa
          subst hfa
          simp [invokeWithFallback, attemptOne, getLlm, providerName, hq, hc, hl, hi]
      · simp [firstAvail, hc] at hfa
        subst hfa
        simp [invokeWithFallback, attemptOne, getLlm, providerName, hq, hc, hi]

theorem c5_witness :
    invokeWithFallback envC5 "ollama_cloud" = ([Provider.local], .ok ("B", "ollama_local")) ∧
    getLlm envC5 "ollama_local" = .ok Provider.local ∧
    getLlm envNone "ollama_cloud" =
      .error "No LLM available. Please check Ollama or OpenAI configuration." :=
  ⟨(c5_preferred_unavailable_first_available envC5).2.2 .cloud .local "B" rfl rfl rfl,
    (c5_preferred_unavailable_first_available envC5).1 .local rfl,
    (c5_preferred_unavailable_first_available envNone).2.1 rfl rfl rfl "ollama_cloud"⟩

/-! ## RAGService.chat: the raise-time model value, fuel irrelevance,
validation behaviour -/

/-- When the `try` body raises, the local `llm_model` value the handler
dispatches on is either the argument (validation raise) or the resolved
model (any later raise). -/
theorem chatTry_error_cur (env : ChatEnv) (req : ChatReq) (model : Option String)
    (e : String) (cur : Option String) (tr : List Ev)
    (h : chatTry env req model = (.error (e, cur), tr)) :
    cur = model ∨ cur = some (resolveModel env.llm model) := by
  unfold chatTry at h
  split at h
  · simp only [Prod.mk.injEq, Except.error.injEq] at h
    exact Or.inl h.1.2.symm
  · split at h
    · simp only [Prod.mk.injEq, Except.error.injEq] at h
      exact Or.inl h.1.2.symm
    · split at h
      · simp only [Prod.mk.injEq, Except.error.injEq] at h
        exact Or.inl h.1.2.symm
      · split at h
        · simp only [Prod.mk.injEq, Except.error.injEq] at h
          exact Or.inl h.1.2.symm
        · split at h
          · simp only [Prod.mk.injEq, Except.error.injEq] at h
            exact Or.inr h.1.2.symm
          · split at h
            · simp only [Prod.mk.injEq, Except.error.injEq] at h
              exact Or.inr h.1.2.symm
            · simp only [Prod.mk.injEq] at h
              exact absurd h.1 (by simp)

theorem getPrimary_cases (env : LlmEnv) :
    getPrimaryLlmType env = "ollama_cloud" ∨ getPrimaryLlmType env = "ollama_local" ∨
      getPrimaryLlmType env = "openai" := by
  unfold getPrimaryLlmType
  split
  · exact Or.inl rfl
  · split
    · exact Or.inr (Or.inl rfl)
    · split
      · exact Or.inr (Or.inr rfl)
      · exact Or.inl rfl

/-- A model name other than "ollama_cloud"/"ollama_local" never recurses:
any fuel gives the single-attempt result. -/
theorem chatAux_eq_noRecover (env : ChatEnv) (req : ChatReq) (s : String)
    (h1 : ¬ s = "ollama_cloud") (h2 : ¬ s = "ollama_local") (f : Nat) :
    chatAux env req f (some s) =
      (match chatTry env req (some s) with
       | (.ok out, tr) => (.ok out, tr)
       | (.error (e, _), tr) => (.error e, tr)) := by
  cases f with
  | zero => rfl
  | succ k =>
    rw [chatAux]
    rcases hc : chatTry env req (some s) with ⟨res, tr⟩
    cases res with
    | ok out => rfl
    | error err =>
      obtain ⟨e, cur⟩ := err
      dsimp only
      have hcs : cur = some s := by
        rcases chatTry_error_cur env req (some s) e cur tr hc with h | h
        · exact h
        · simpa [resolveModel] using h
      rw [if_neg (by rw [hcs]; simp [h1]), if_neg (by rw [hcs]; simp [h2])]

theorem chatAux_fuel_local (env : ChatEnv) (req : ChatReq) :
    ∀ f g, 1 ≤ f → 1 ≤ g →
      chatAux env req f (some "ollama_local") = chatAux env req g (some "ollama_local") := by
  intro f g hf hg
  match f, hf, g, hg with
  | a + 1, _, b + 1, _ =>
    rw [chatAux, chatAux]
    rcases hc : chatTry env req (some "ollama_local") with ⟨res, tr⟩
    cases res with
    | ok out => rfl
    | error err =>
      obtain ⟨e, cur⟩ := err
      dsimp only
      have hcs : cur = some "ollama_local" := by
        rcases chatTry_error_cur env req _ e cur tr hc with h | h
        · exact h
        · simpa [resolveModel] using h
      subst hcs
      rw [chatAux_eq_noRecover env req "openai" (by decide) (by decide) a,
        chatAux_eq_noRecover env req "openai" (by decide) (by decide) b]
      simp

theorem chatAux_fuel_cloud (env : ChatEnv) (req : ChatReq) :
    ∀ f g, 2 ≤ f → 2 ≤ g →
      chatAux env req f (some "ollama_cloud") = chatAux env req g (some "ollama_cloud") := by
  intro f g hf hg
  match f, hf, g, hg with
  | a + 1, hf, b + 1, hg =>
    rw [chatAux, chatAux]
    rcases hc : chatTry env req (some "ollama_cloud") with ⟨res, tr⟩
    cases res with
    | ok out => rfl
    | error err =>
      obtain ⟨e, cur⟩ := err
      dsimp only
      have hcs : cur = some "ollama_cloud" := by
        rcases chatTry_error_cur env req _ e cur tr hc with h | h
        · exact h
        · simpa [resolveModel] using h
      subst hcs
      rw [chatAux_fuel_local env req a b (by omega) (by omega)]
      simp

theorem chatAux_fuel_none (env : ChatEnv) (req : ChatReq) :
    ∀ f g, 2 ≤ f → 2 ≤ g →
      chatAux env req f none = chatAux env req g none := by
  intro f g hf hg
  match f, hf, g, hg with
  | a + 1, hf, b + 1, hg =>
    rw [chatAux, chatAux]
    rcases hc : chatTry env req none with ⟨res, tr⟩
    cases res with
    | ok out => rfl
    | error err =>
      obtain ⟨e, cur⟩ := err
      dsimp only
      rcases chatTry_error_cur env req none e cur tr hc with hcs | hcs
      · subst hcs
        simp
      · rcases getPrimary_cases env.llm with hp | hp | hp
        · have hcs2 : cur = some "ollama_cloud" := by
            rw [hcs]; simp [resolveModel, hp]
          subst hcs2
          rw [chatAux_fuel_local env req a b (by omega) (by omega)]
          simp
        · have hcs2 : cur = some "ollama_local" := by
            rw [hcs]; simp [resolveModel, hp]
          subst hcs2
          rw [chatAux_eq_noRecover env req "openai" (by decide) (by decide) a,
            chatAux_eq_noRecover env req "openai" (by decide) (by decide) b]
          simp
        · have hcs2 : cur = some "openai" := by
            rw [hcs]; simp [resolveModel, hp]
          subst hcs2
          simp

/-- `chat` (fuel 4) computes the fixpoint of the source's unbounded
recursion: any fuel bound of at least 2 yields the same result, because
the handler chain cloud → local → openai re-raises after at most three
attempts. -/
theorem chatAux_fuel_irrel (env : ChatEnv) (req : ChatReq) (model : Option String)
    (f g : Nat) (hf : 2 ≤ f) (hg : 2 ≤ g) :
    chatAux env req f model = chatAux env req g model := by
  cases model with
  | none => exact chatAux_fuel_none env req f g hf hg
  | some s =>
    by_cases h1 : s = "ollama_cloud"
    · subst h1; exact chatAux_fuel_cloud env req f g hf hg
    · by_cases h2 : s = "ollama_local"
      · subst h2; exact chatAux_fuel_local env req f g (by omega) (by omega)
      · rw [chatAux_eq_noRecover env req s h1 h2 f, chatAux_eq_noRecover env req s h1 h2 g]

theorem chatTry_validationFail (env : ChatEnv) (req : ChatReq) (model : Option String)
    (h : badParams req model) :
    ∃ msg ∈ validationMsgs,
      chatTry env req model = (.error (msg, model), [Ev.validationFail]) := by
  unfold chatTry
  by_cases h1 : (modelTruthy model && !(validModels.contains (model.getD ""))) = true
  · rw [if_pos h1]
    exact ⟨"Invalid LLM model specified", by decide, rfl⟩
  · rw [if_neg h1]
    by_cases h2 : ¬ (0 ≤ req.temperature ∧ req.temperature ≤ 2)
    · rw [if_pos h2]
      exact ⟨"Temperature must be between 0 and 2", by decide, rfl⟩
    · rw [if_neg h2]
      by_cases h3 : ¬ (1 ≤ req.topK ∧ req.topK ≤ 20)
      · rw [if_pos h3]
        exact ⟨"Top-K must be between 1 and 20", by decide, rfl⟩
      · rw [if_neg h3]
        by_cases h4 : collectionNameBad req.collectionName = true
        · rw [if_pos h4]
          exact ⟨"Collection name cannot be empty", by decide, rfl⟩
        · exfalso
          rcases h with h | h | h | h
          · exact h2 h
          · exact h3 h
          · exact h4 h
          · exact h1 (by rw [h.1, h.2]; rfl)

theorem chatAux_allbad (env : ChatEnv) (req : ChatReq)
    (hbp : ∀ m : Option String, badParams req m) :
    ∀ fuel (model : Option String),
      (∃ msg ∈ validationMsgs, (chatAux env req fuel model).1 = .error msg) ∧
      (∀ ev ∈ (chatAux env req fuel model).2, ev = Ev.validationFail) := by
  intro fuel
  induction fuel with
  | zero =>
    intro model
    obtain ⟨msg, hmem, hc⟩ := chatTry_validationFail env req model (hbp model)
    rw [chatAux, hc]
    dsimp only
    exact ⟨⟨msg, hmem, rfl⟩, by intro ev hev; simpa using hev⟩
  | succ k ih =>
    intro model
    obtain ⟨msg, hmem, hc⟩ := chatTry_validationFail env req model (hbp model)
    rw [chatAux, hc]
    dsimp only
    by_cases hcl : model = some "ollama_cloud"
    · rw [if_pos hcl]
      obtain ⟨⟨msg2, hm2, hr2⟩, hev2⟩ := ih (some "ollama_local")
      rcases hA : chatAux env req k (some "ollama_local") with ⟨r, tr2⟩
      rw [hA] at hr2 hev2
      refine ⟨⟨msg2, hm2, hr2⟩, ?_⟩
      intro ev hev
      rcases List.mem_append.mp hev with hev | hev
      · simpa using hev
      · exact hev2 ev hev
    · rw [if_neg hcl]
      by_cases hlo : model = some "ollama_local"
      · rw [if_pos hlo]
        obtain ⟨⟨msg2, hm2, hr2⟩, hev2⟩ := ih (some "openai")
        rcases hA : chatAux env req k (some "openai") with ⟨r, tr2⟩
        rw [hA] at hr2 hev2
        refine ⟨⟨msg2, hm2, hr2⟩, ?_⟩
        intro ev hev
        rcases List.mem_append.mp hev with hev | hev
        · simpa using hev
        · exact hev2 ev hev
      · rw [if_neg hlo]
        exact ⟨⟨msg, hmem, rfl⟩, by intro ev hev; simpa using hev⟩

/-- C6 (amended): every orchestrator request failing one of the four
validation checks — out-of-bounds temperature or top-k, whitespace-only
non-empty collection name, or a truthy provider id outside the valid list —
fails with one of the typed validation error messages and performs no
retrieval call and no provider invocation (every trace event is a raised
validation error).  However, when the requested provider id is
"ollama_cloud" or "ollama_local" the `except` handler of `chat` re-enters
the whole call with the next fallback model, re-running (and re-failing)
validation up to two more times before the error surfaces — see the
counterexample — and an empty-string provider id is falsy in Python and
bypasses provider-id validation entirely, proceeding to retrieval and
generation. -/
theorem c6_validation_fails_fast (env : ChatEnv) (req : ChatReq) (model : Option String)
    (h : badParams req model) :
    (∃ msg ∈ validationMsgs, (chat env req model).1 = .error msg) ∧
    (∀ ev ∈ (chat env req model).2, ev = Ev.validationFail) := by
  by_cases hP : ¬ (0 ≤ req.temperature ∧ req.temperature ≤ 2) ∨
      ¬ (1 ≤ req.topK ∧ req.topK ≤ 20) ∨ collectionNameBad req.collectionName = true
  · have hbp : ∀ m : Option String, badParams req m := by
      intro m
      rcases hP with h0 | h0 | h0
      · exact Or.inl h0
      · exact Or.inr (Or.inl h0)
      · exact Or.inr (Or.inr (Or.inl h0))
    exact chatAux_allbad env req hbp 4 model
  · push_neg at hP
    rcases h with h | h | h | h
    · exact absurd hP.1 h
    · exact absurd hP.2.1 h
    · exact absurd h hP.2.2
    · obtain ⟨ht, hcon⟩ := h
      obtain ⟨msg, hmem, hc⟩ := chatTry_validationFail env req model
        (Or.inr (Or.inr (Or.inr ⟨ht, hcon⟩)))
      have hnc : ¬ model = some "ollama_cloud" := by
        intro he
        rw [he] at hcon
        exact absurd hcon (by decide)
      have hnl : ¬ model = some "ollama_local" := by
        intro he
        rw [he] at hcon
        exact absurd hcon (by decide)
      have hstep : chat env req model = chatAux env req (3 + 1) model := rfl
      rw [hstep, chatAux, hc]
      dsimp only
      rw [if_neg hnc, if_neg hnl]
      exact ⟨⟨msg, hmem, rfl⟩, by intro ev hev; simpa using hev⟩

theorem c6_witness :
    (∃ msg ∈ validationMsgs, (chat envC2 reqBadTopK none).1 = .error msg) ∧
    (∀ ev ∈ (chat envC2 reqBadTopK none).2, ev = Ev.validationFail) :=
  c6_validation_fails_fast envC2 reqBadTopK none (Or.inr (Or.inl (by decide)))

/-- C6 (counterexample): a request with requested provider "ollama_cloud"
and temperature 5 raises the typed validation error, but the orchestrator's
`except` fallback chain re-runs (and re-fails) validation under
"ollama_local" and then "openai" before surfacing it — three validation
failures in the trace, refuting "the validation failure is never retried
through any fallback chain".  And a request with the invalid provider id
"" (empty string, not in VALID_LLM_MODELS) bypasses validation entirely
and performs a retrieval call and a provider invocation, refuting "an
invalid provider id fails immediately with no network call". -/
theorem c6_counterexample :
    (chat envC2 reqBadTemp (some "ollama_cloud")).2 =
      [Ev.validationFail, Ev.validationFail, Ev.validationFail] ∧
    (chat envC2 reqBadTemp (some "ollama_cloud")).1 =
      .error "Temperature must be between 0 and 2" ∧
    (chat envC2 reqC2 (some "")).2 = [Ev.retrieveCall, Ev.invokeCall Provider.openai] := by
  refine ⟨by decide, by decide, by decide⟩

/-- C2: with the local and openai providers available and the request
naming "ollama_local", a math question ("calculate the integral ...") is
generated by the openai provider (the math-question override of
`_generate`), yet the outcome's `llm_used` field reports "ollama_local" —
the requested/resolved id, not the provider that actually produced the
answer (`_generate` discards the actual id `get_llm` returns: `llm, _ =
...`, and `chat` returns `"llm_used": llm_model`). -/
theorem c2_reported_provider_mismatch :
    (chat envC2 reqC2 (some "ollama_local")).1 =
      .ok ⟨"the answer", ["ctx"], "ollama_local", Provider.openai⟩ ∧
    providerName Provider.openai ≠ "ollama_local" := by
  refine ⟨by decide, by decide⟩

/-! ## DocumentProcessor.process_document: terminal states, batch ordering -/

theorem runBatches_take (env : IngestEnv) :
    ∀ (l acc : List Nat), (runBatches env l acc).1 = l.take (runBatches env l acc).1.length := by
  intro l
  induction l with
  | nil => intro acc; rfl
  | cons i rest ih =>
    intro acc
    rw [runBatches]
    rcases hb : env.addBatch i with e | ids
    · simp
    · dsimp only
      rcases hr : runBatches env rest (acc ++ ids) with ⟨tried, res⟩
      dsimp only
      have htail := ih (acc ++ ids)
      rw [hr] at htail
      simp only [List.length_cons, List.take_succ_cons, List.cons.injEq, true_and]
      exact htail

theorem runBatches_ok (env : IngestEnv) :
    ∀ (l acc tr ids : List Nat), runBatches env l acc = (tr, .ok ids) →
      ids = l.foldl (fun a i => a ++ ((env.addBatch i).toOption.getD [])) acc ∧ tr = l := by
  intro l
  induction l with
  | nil =>
    intro acc tr ids h
    rw [runBatches] at h
    injection h with h1 h2
    exact ⟨(Except.ok.inj h2.symm), h1.symm⟩
  | cons i rest ih =>
    intro acc tr ids h
    rw [runBatches] at h
    rcases hb : env.addBatch i with e | bids
    · rw [hb] at h
      exact absurd h (by simp)
    · rw [hb] at h
      dsimp only at h
      rcases hr : runBatches env rest (acc ++ bids) with ⟨tr2, res2⟩
      rw [hr] at h
      dsimp only at h
      injection h with h1 h2
      subst h1
      subst h2
      obtain ⟨hids, htr2⟩ := ih (acc ++ bids) tr2 ids hr
      subst htr2
      refine ⟨?_, rfl⟩
      rw [List.foldl_cons]
      simpa [hb] using hids

/-- C9: for every invocation of the ingestion pipeline on an existing
document, the record ends in exactly one of two terminal states —
`completed`, with the chunk count and the accumulated vector-id list
recorded (and the error field untouched), or `failed`, with the message of
the first raised exception captured in `error_message` — and the attempted
batch list is an in-order duplicate-free prefix of the planned batch
sequence: after a failing batch the loop stops, and no already-inserted
batch is ever re-attempted within the invocation. -/
theorem c9_terminal_states (env : IngestEnv) (doc : DocRecord) :
    (((processDocument env doc).1.status = "completed" ∧
        (processDocument env doc).1.chunkCount = some ((chunksOf env).getD []).length ∧
        (processDocument env doc).1.vectorIds = some (collectedIds env) ∧
        (processDocument env doc).1.errorMessage = doc.errorMessage) ∨
      ((processDocument env doc).1.status = "failed" ∧
        (processDocument env doc).1.errorMessage = ingestError env ∧
        (ingestError env).isSome)) ∧
    (processDocument env doc).2.Nodup ∧
    (processDocument env doc).2 =
      (List.range (plannedBatches env)).take (processDocument env doc).2.length := by
  unfold processDocument
  rcases hl : env.loadResult with e | pages
  · dsimp only
    refine ⟨Or.inr ⟨rfl, ?_, ?_⟩, by simp, by simp⟩
    · show some e = ingestError env
      unfold ingestError
      rw [hl]
    · unfold ingestError
      rw [hl]
      rfl
  · dsimp only
    rcases hs : env.splitResult pages with e | chunks
    · dsimp only
      refine ⟨Or.inr ⟨rfl, ?_, ?_⟩, by simp, by simp⟩
      · show some e = ingestError env
        unfold ingestError
        rw [hl]
        dsimp only
        rw [hs]
      · unfold ingestError
        rw [hl]
        dsimp only
        rw [hs]
        rfl
    · dsimp only
      have hplanned : plannedBatches env = numBatches chunks.length := by
        unfold plannedBatches chunksOf
        rw [hl]
        dsimp only
        rw [hs]
        rfl
      have htake := runBatches_take env (List.range (numBatches chunks.length)) []
      rcases hr : runBatches env (List.range (numBatches chunks.length)) [] with ⟨tried, res⟩
      rw [hr] at htake
      dsimp only at htake
      have hnodup : tried.Nodup := by
        rw [htake]
        exact (List.take_sublist _ _).nodup (List.nodup_range _)
      cases res with
      | error e =>
        dsimp only
        refine ⟨Or.inr ⟨rfl, ?_, ?_⟩, hnodup, ?_⟩
        · show some e = ingestError env
          unfold ingestError
          rw [hl]
          dsimp only
          rw [hs]
          dsimp only
          rw [hr]
        · unfold ingestError
          rw [hl]
          dsimp only
          rw [hs]
          dsimp only
          rw [hr]
          rfl
        · show tried = (List.range (plannedBatches env)).take tried.length
          rw [hplanned]
          exact htake
      | ok ids =>
        dsimp only
        obtain ⟨hids, htr⟩ := runBatches_ok env _ [] tried ids hr
        refine ⟨Or.inl ⟨rfl, ?_, ?_, rfl⟩, hnodup, ?_⟩
        · show some chunks.length = some ((chunksOf env).getD []).length
          unfold chunksOf
          rw [hl]
          dsimp only
          rw [hs]
          rfl
        · show some ids = some (collectedIds env)
          unfold collectedIds
          rw [hplanned, ← hids]
        · show tried = (List.range (plannedBatches env)).take tried.length
          rw [hplanned]
          exact htake

end Ida
